import Mathlib

/-!
Verification of the WAL ingestion and forwarding pipeline of
stackdriver-prometheus-sidecar, as implemented by `retrieval/manager.go`
(`NewPrometheusReader`, `PrometheusReader.Run`, `PrometheusReader.Stop`).

The decode loop of `Run` is embedded shallowly: the WAL tailer plus the
tsdb record reader/decoder (external collaborators of this file's code)
are modelled as a stream of already-decoded events, and the loop body is
translated statement by statement.  Components of the repository that the
loop calls but whose sources are not shown (`seriesCache`,
`NewMetricFamily`, `NoTimestamp`, the observability counters) are
modelled from the specification, and are marked as such in their doc
comments.
-/

namespace Retrieval

/-- A label name/value pair, as in Prometheus `labels.Label`. -/
structure Label where
  name : String
  value : String
deriving DecidableEq, Repr

/-- An ordered label sequence, as in Prometheus `labels.Labels`. -/
abbrev Labels := List Label

/-- The reserved metric-name label name, Prometheus `labels.MetricName`. -/
def MetricName : String := "__name__"

/-- The pipeline never inspects or computes with sample values: an IEEE-754
float64 is only copied from the decoded sample into the outbound proto field.
We therefore model a value by its 64-bit pattern, so that equality of model
values is exactly bit-identity of the floats (NaN and infinity payloads
included). -/
abbrev F64 := Nat

/-- A decoded sample, as in `tsdb.RefSample`: reference, timestamp in
milliseconds, value. -/
structure Sample where
  ref : Nat
  t : Int
  v : F64
deriving DecidableEq, Repr

/-- A decoded series declaration entry, as in `tsdb.RefSeries`. -/
structure RefSeries where
  ref : Nat
  lset : Labels
deriving DecidableEq, Repr

/-- Log levels of the go-kit logger as used by `Run`. -/
inductive LogLevel where
  | info
  | warn
  | error
deriving DecidableEq, Repr

/-- A structured log record: level plus the `msg`/`error` field. -/
abbrev LogEntry := LogLevel × String

/-- The `dto.MetricType` enum of the client_model protos. -/
inductive MetricType where
  | counter
  | gauge
  | summary
  | untyped
  | histogram
deriving DecidableEq, Repr

/-- The `dto.MetricFamily` proto message, restricted to the fields `Run`
sets.  `Run` builds a family holding exactly one `dto.Metric`
(`Metric: []*dto.Metric\x7b\x7b\x7d\x7d`), so that single metric's fields
(`Label`, `Untyped.Value`, `TimestampMs`) are inlined here.  Proto optional
scalar fields are pointers in Go and so `Option`s here (`none` = unset). -/
structure DtoMetricFamily where
  name : Option String
  mtype : Option MetricType
  labelPairs : List Label
  untypedValue : Option F64
  timestampMs : Option Int
deriving DecidableEq, Repr

/-- Modelled from the spec: `NoTimestamp` is declared in the `retrieval`
package outside the shown sources.  The spec describes it only as "a sentinel
reset-timestamp indicating unknown/not tracked"; its concrete value is
irrelevant to every claim, which compare against the sentinel symbolically. -/
def NoTimestamp : Int := 0

/-- Modelled from the spec: the outbound metric handed to the appender
(spec "OutboundMetric"): the built proto family together with the
reset-timestamp list and the target labels passed to `NewMetricFamily`. -/
structure MetricFamily where
  family : DtoMetricFamily
  metricResetTimestampMs : List Int
  targetLabels : Labels
deriving DecidableEq, Repr

/-- Modelled from the spec: `NewMetricFamily` is declared in the `retrieval`
package outside the shown sources.  Per the spec's Translate-Failed error
kind ("per-sample (e.g. missing name label), logged at warn, counted,
dropped"), construction fails when the family has no metric name; otherwise
it returns the outbound record carrying the family, the reset timestamps and
the target labels. -/
def NewMetricFamily (mf : DtoMetricFamily) (resetTs : List Int)
    (targetLabels : Labels) : Except String MetricFamily :=
  match mf.name with
  | none => .error "missing metric name"
  | some _ => .ok ⟨mf, resetTs, targetLabels⟩

/-- A series-cache entry: the spec's CacheEntry ⟨labels, maxSegmentSeen⟩. -/
structure CacheEntry where
  lset : Labels
  maxSegment : Nat
deriving DecidableEq, Repr

/-- Modelled from the spec: the `seriesCache` map (declared in the
`retrieval` package outside the shown sources), keyed by series ref. -/
abbrev SeriesCache := List (Nat × CacheEntry)

/-- Modelled from the spec: `seriesCache.get(ref)` returns the labels when
the ref is present. -/
def seriesCacheGet (c : SeriesCache) (ref : Nat) : Option Labels :=
  (c.lookup ref).map CacheEntry.lset

/-- Modelled from the spec: `seriesCache.set(ref, labels, segment)` inserts
or updates the entry, raising `maxSegmentSeen` to the maximum of the existing
value and the observed segment. -/
def seriesCacheSet (c : SeriesCache) (ref : Nat) (lset : Labels)
    (seg : Nat) : SeriesCache :=
  match c.lookup ref with
  | none => (ref, ⟨lset, seg⟩) :: c
  | some e => (ref, ⟨lset, max e.maxSegment seg⟩)
      :: c.filter (fun p => !(p.1 == ref))

/-- The observable state threaded through `Run`'s decode loop: the series
cache, the trace of `Append` calls made on the downstream appender (in call
order, each entry the argument of one call), the log stream, and the
observability counters.  `appendLog` is ghost instrumentation: it mirrors
`appended` one entry per `Append` call, recording the decoded sample and the
looked-up label set that produced the call; the invariant relating the two
lists is proved below.  The counters are modelled from the spec (the
observability surface is not under the shown sources). -/
structure RunState where
  cache : SeriesCache
  appended : List MetricFamily
  appendLog : List (Sample × Labels)
  logs : List LogEntry
  droppedUnknownRef : Nat
  translateFailed : Nat
  decodeFailed : Nat
deriving DecidableEq, Repr

/-- One iteration of the label loop in `Run`: the reserved name label sets
the family's name and is skipped; every other label is appended to the
metric's label list in order. -/
def addLabel (mf : DtoMetricFamily) (l : Label) : DtoMetricFamily :=
  if l.name = MetricName then { mf with name := some l.value }
  else { mf with labelPairs := mf.labelPairs ++ [l] }

/-- The construction of the `dto.MetricFamily` for one sample in `Run`:
start from the empty family with one empty metric, run the label loop over
the series' label set, then set the type to UNTYPED, the untyped value to
the sample's value and the timestamp to the sample's timestamp. -/
def buildFamily (lset : Labels) (s : Sample) : DtoMetricFamily :=
  let mf0 : DtoMetricFamily :=
    { name := none, mtype := none, labelPairs := [],
      untypedValue := none, timestampMs := none }
  let mf1 := lset.foldl addLabel mf0
  { mf1 with mtype := some .untyped, untypedValue := some s.v,
             timestampMs := some s.t }

/-- The translation of one looked-up sample in `Run`: build the family, then
call `NewMetricFamily` with the reset-timestamp list `[NoTimestamp]` and the
target labels, which `Run` fills with a copy of the series' label set. -/
def translateSample (lset : Labels) (s : Sample) : Except String MetricFamily :=
  NewMetricFamily (buildFamily lset s) [NoTimestamp] lset

/-- The body of the per-sample loop in `Run`: look the ref up in the series
cache; on a miss, log a warning and drop (counting the drop); otherwise
translate, and either log a warning and drop on translation failure
(counting it) or call `Append` on the appender with the resulting family. -/
def processSample (st : RunState) (s : Sample) : RunState :=
  match seriesCacheGet st.cache s.ref with
  | none =>
      { st with
        logs := st.logs ++ [(.warn, "Unknown series ref in sample")],
        droppedUnknownRef := st.droppedUnknownRef + 1 }
  | some lset =>
      match translateSample lset s with
      | .error _ =>
          { st with
            logs := st.logs ++ [(.warn, "Cannot construct MetricFamily")],
            translateFailed := st.translateFailed + 1 }
      | .ok f =>
          { st with
            appended := st.appended ++ [f],
            appendLog := st.appendLog ++ [(s, lset)] }

/-- A WAL record as the loop's `switch decoder.Type(record)` dispatches it.
The tsdb record decoder is an external collaborator; each record carries its
decoding outcome (records of the three known kinds may fail to decode, and
any further record type falls through the switch). -/
inductive RecordData where
  | series (res : Except String (List RefSeries))
  | samples (res : Except String (List Sample))
  | tombstones
  | other
deriving Repr

/-- What one `reader.Next()` iteration observes: either a record, or a
reader error (`reader.Err()` non-nil: corrupt record or fatal read error,
per the spec's RecordReader contract — the reader is an external
collaborator modelled from the spec). -/
inductive ReaderItem where
  | record (d : RecordData)
  | readErr (e : String)
deriving Repr

/-- Boolean discriminator for reader-error items. -/
def ReaderItem.isReadErr : ReaderItem → Bool
  | .record _ => false
  | .readErr _ => true

/-- One loop iteration's input: the reader item together with
`tailer.CurrentSegment()` at that point. -/
structure Event where
  item : ReaderItem
  segment : Nat
deriving Repr

/-- The body of the record loop in `Run`: dispatch on the record type.
A failed series or samples decode logs an error and continues (the decode
counter is modelled from the spec's observability surface); decoded series
entries are written to the cache tagged with the tailer's current segment;
decoded samples run the per-sample loop; tombstones and unknown record types
do nothing. -/
def processRecord (st : RunState) (seg : Nat) : RecordData → RunState
  | .series (.error _) =>
      { st with logs := st.logs ++ [(.error, "series decode error")],
                decodeFailed := st.decodeFailed + 1 }
  | .series (.ok rs) =>
      { st with
        cache := rs.foldl (fun c r => seriesCacheSet c r.ref r.lset seg) st.cache }
  | .samples (.error _) =>
      { st with logs := st.logs ++ [(.error, "samples decode error")],
                decodeFailed := st.decodeFailed + 1 }
  | .samples (.ok ss) => ss.foldl processSample st
  | .tombstones => st
  | .other => st

/-- The record loop of `Run`: while the reader yields, return `reader.Err()`
if it is set, otherwise process the record; when the stream ends (the reader
observes EOF-equivalent, e.g. after cancellation closes the tailer), log the
completion message and return nil (`none`). -/
def runFrom (st : RunState) : List Event → Option String × RunState
  | [] => (none, { st with logs := st.logs ++ [(.info, "Done processing WAL.")] })
  | e :: rest =>
    match e.item with
    | .readErr msg => (some msg, st)
    | .record d => runFrom (processRecord st e.segment d) rest

/-- The run state at the top of the loop: empty cache, no appends, the
startup log line, zeroed counters. -/
def initState : RunState :=
  { cache := [], appended := [], appendLog := [],
    logs := [(.info, "Starting Prometheus reader...")],
    droppedUnknownRef := 0, translateFailed := 0, decodeFailed := 0 }

/-- `PrometheusReader.Run`, given the decoded event stream the tailer and
record reader yield before the stream ends. -/
def Run (events : List Event) : Option String × RunState :=
  runFrom initState events

/-- The control surface of the `PrometheusReader` struct relevant to
`Stop`: `cancelTail` is a Go function field whose zero value is nil,
modelled as an `Option` (`none` = nil). -/
structure PrometheusReaderCtl where
  walDirectory : String
  cancelTail : Option Unit
deriving DecidableEq, Repr

/-- `NewPrometheusReader`: the constructor sets the logger, WAL directory
and appender fields and leaves `cancelTail` at its zero value (nil). -/
def NewPrometheusReader (walDirectory : String) : PrometheusReaderCtl :=
  { walDirectory := walDirectory, cancelTail := none }

/-- The first statements of `Run` assign `r.cancelTail` from
`context.WithCancel`, making it non-nil. -/
def runStart (r : PrometheusReaderCtl) : PrometheusReaderCtl :=
  { r with cancelTail := some () }

/-- `PrometheusReader.Stop` calls `r.cancelTail()`.  In Go, calling a nil
function value panics; the panic is modelled as the `.error` branch. -/
def Stop (r : PrometheusReaderCtl) : Except String Unit :=
  match r.cancelTail with
  | none => .error "runtime error: invalid memory address or nil pointer dereference"
  | some _ => .ok ()

/-- The decoded samples a single record contributes, in batch order. -/
def recSamples : RecordData → List Sample
  | .samples (.ok ss) => ss
  | _ => []

/-- The decoded samples a single event contributes. -/
def eventSamples (e : Event) : List Sample :=
  match e.item with
  | .record d => recSamples d
  | .readErr _ => []

/-- All successfully decoded samples of an event stream, in WAL record
order, batch order within each record. -/
def walSamples : List Event → List Sample
  | [] => []
  | e :: rest => eventSamples e ++ walSamples rest

/-- The cumulative effect of processing a list of events (the loop body
iterated, ignoring the early-return branch). -/
def processEvents (st : RunState) (events : List Event) : RunState :=
  events.foldl
    (fun st e =>
      match e.item with
      | .record d => processRecord st e.segment d
      | .readErr _ => st)
    st

/-! Helper lemmas: the label loop and the translation step. -/

/-- Specification-side view of how the label loop threads the family name:
the last reserved-name label seen wins, otherwise the accumulator stands. -/
def nameFold (acc : Option String) (lset : Labels) : Option String :=
  lset.foldl (fun a l => if l.name = MetricName then some l.value else a) acc

theorem foldl_addLabel_eq (lset : Labels) (mf : DtoMetricFamily) :
    lset.foldl addLabel mf =
      { mf with name := nameFold mf.name lset,
                labelPairs :=
                  mf.labelPairs ++ lset.filter (fun l => l.name ≠ MetricName) } := by
  induction lset generalizing mf with
  | nil => simp [nameFold]
  | cons l ls ih =>
    rw [List.foldl_cons, ih]
    by_cases h : l.name = MetricName
    · simp [addLabel, nameFold, h, List.filter_cons]
    · simp [addLabel, nameFold, h, List.filter_cons]

theorem nameFold_no_name (lset : Labels) (acc : Option String)
    (h : lset.filter (fun l => l.name = MetricName) = []) :
    nameFold acc lset = acc := by
  induction lset generalizing acc with
  | nil => rfl
  | cons l ls ih =>
    by_cases hl : l.name = MetricName
    · simp [List.filter_cons, hl] at h
    · simp only [List.filter_cons, hl, decide_False] at h
      simp only [nameFold, List.foldl_cons, if_neg hl]
      exact ih acc h

theorem nameFold_unique (lset : Labels) (acc : Option String) (nl : Label)
    (h : lset.filter (fun l => l.name = MetricName) = [nl]) :
    nameFold acc lset = some nl.value := by
  induction lset generalizing acc with
  | nil => simp at h
  | cons l ls ih =>
    by_cases hl : l.name = MetricName
    · simp only [List.filter_cons, hl, decide_True, if_pos] at h
      obtain ⟨rfl, hrest⟩ : l = nl ∧ ls.filter (fun l => l.name = MetricName) = [] := by
        injection h with h1 h2; exact ⟨h1, h2⟩
      simp only [nameFold, List.foldl_cons, if_pos hl]
      exact nameFold_no_name ls (some l.value) hrest
    · simp only [List.filter_cons, hl, decide_False] at h
      simp only [nameFold, List.foldl_cons, if_neg hl]
      exact ih acc h

theorem buildFamily_mtype (lset : Labels) (s : Sample) :
    (buildFamily lset s).mtype = some MetricType.untyped := rfl

theorem buildFamily_untypedValue (lset : Labels) (s : Sample) :
    (buildFamily lset s).untypedValue = some s.v := rfl

theorem buildFamily_timestampMs (lset : Labels) (s : Sample) :
    (buildFamily lset s).timestampMs = some s.t := rfl

theorem buildFamily_name (lset : Labels) (s : Sample) :
    (buildFamily lset s).name = nameFold none lset := by
  simp [buildFamily, foldl_addLabel_eq]

theorem buildFamily_labelPairs (lset : Labels) (s : Sample) :
    (buildFamily lset s).labelPairs
      = lset.filter (fun l => l.name ≠ MetricName) := by
  simp [buildFamily, foldl_addLabel_eq]

theorem translateSample_ok (lset : Labels) (s : Sample) (f : MetricFamily)
    (h : translateSample lset s = Except.ok f) :
    f = ⟨buildFamily lset s, [NoTimestamp], lset⟩ := by
  unfold translateSample NewMetricFamily at h
  cases hn : (buildFamily lset s).name with
  | none => rw [hn] at h; exact absurd h (by simp)
  | some v => rw [hn] at h; injection h with h'; exact h'.symm

theorem translateSample_ok_of_name (lset : Labels) (s : Sample) (v : String)
    (h : (buildFamily lset s).name = some v) :
    translateSample lset s = Except.ok ⟨buildFamily lset s, [NoTimestamp], lset⟩ := by
  simp [translateSample, NewMetricFamily, h]

/-! Helper lemmas: the three branches of the per-sample loop body. -/

theorem processSample_none (st : RunState) (s : Sample)
    (h : seriesCacheGet st.cache s.ref = none) :
    processSample st s =
      { st with logs := st.logs ++ [(.warn, "Unknown series ref in sample")],
                droppedUnknownRef := st.droppedUnknownRef + 1 } := by
  unfold processSample
  simp only [h]

theorem processSample_translateErr (st : RunState) (s : Sample) (lset : Labels)
    (e : String) (hget : seriesCacheGet st.cache s.ref = some lset)
    (htr : translateSample lset s = Except.error e) :
    processSample st s =
      { st with logs := st.logs ++ [(.warn, "Cannot construct MetricFamily")],
                translateFailed := st.translateFailed + 1 } := by
  unfold processSample
  simp only [hget, htr]

theorem processSample_translateOk (st : RunState) (s : Sample) (lset : Labels)
    (f : MetricFamily) (hget : seriesCacheGet st.cache s.ref = some lset)
    (htr : translateSample lset s = Except.ok f) :
    processSample st s =
      { st with appended := st.appended ++ [f],
                appendLog := st.appendLog ++ [(s, lset)] } := by
  unfold processSample
  simp only [hget, htr]

/-! Helper lemmas: invariants of the decode loop. -/

theorem processSample_appendLog (st : RunState) (s : Sample) :
    (processSample st s).appendLog = st.appendLog ∨
      ∃ lset, (processSample st s).appendLog = st.appendLog ++ [(s, lset)] := by
  rcases hget : seriesCacheGet st.cache s.ref with _ | lset
  · left; rw [processSample_none st s hget]
  · rcases htr : translateSample lset s with e | f
    · left; rw [processSample_translateErr st s lset e hget htr]
    · right; exact ⟨lset, by rw [processSample_translateOk st s lset f hget htr]⟩

theorem foldl_processSample_appendLog (ss : List Sample) :
    ∀ st : RunState, ∃ ext,
      (ss.foldl processSample st).appendLog = st.appendLog ++ ext ∧
        List.Sublist (ext.map Prod.fst) ss := by
  induction ss with
  | nil => intro st; exact ⟨[], by rw [List.append_nil]; rfl, List.nil_sublist _⟩
  | cons s ss ih =>
    intro st
    rcases processSample_appendLog st s with hunch | ⟨lset, hext⟩
    · obtain ⟨ext, he, hs⟩ := ih (processSample st s)
      exact ⟨ext, by rw [List.foldl_cons, he, hunch], List.Sublist.cons s hs⟩
    · obtain ⟨ext, he, hs⟩ := ih (processSample st s)
      refine ⟨(s, lset) :: ext, ?_, ?_⟩
      · rw [List.foldl_cons, he, hext, List.append_assoc, List.singleton_append]
      · simpa using List.Sublist.cons₂ s hs

theorem processRecord_appendLog (st : RunState) (seg : Nat) (d : RecordData) :
    ∃ ext, (processRecord st seg d).appendLog = st.appendLog ++ ext ∧
      List.Sublist (ext.map Prod.fst) (recSamples d) := by
  cases d with
  | series res =>
    cases res with
    | error e => exact ⟨[], by rw [List.append_nil]; rfl, List.nil_sublist _⟩
    | ok rs => exact ⟨[], by rw [List.append_nil]; rfl, List.nil_sublist _⟩
  | samples res =>
    cases res with
    | error e => exact ⟨[], by rw [List.append_nil]; rfl, List.nil_sublist _⟩
    | ok ss => exact foldl_processSample_appendLog ss st
  | tombstones => exact ⟨[], by rw [List.append_nil]; rfl, List.nil_sublist _⟩
  | other => exact ⟨[], by rw [List.append_nil]; rfl, List.nil_sublist _⟩

theorem runFrom_appendLog (events : List Event) :
    ∀ st : RunState, ∃ ext,
      (runFrom st events).2.appendLog = st.appendLog ++ ext ∧
        List.Sublist (ext.map Prod.fst) (walSamples events) := by
  induction events with
  | nil => intro st; exact ⟨[], by rw [List.append_nil]; rfl, List.nil_sublist _⟩
  | cons e rest ih =>
    intro st
    rcases e with ⟨item, seg⟩
    cases item with
    | readErr msg => exact ⟨[], by rw [List.append_nil]; rfl, List.nil_sublist _⟩
    | record d =>
      obtain ⟨ext1, he1, hs1⟩ := processRecord_appendLog st seg d
      obtain ⟨ext2, he2, hs2⟩ := ih (processRecord st seg d)
      refine ⟨ext1 ++ ext2, ?_, ?_⟩
      · show (runFrom (processRecord st seg d) rest).2.appendLog = _
        rw [he2, he1, List.append_assoc]
      · show List.Sublist _ (recSamples d ++ walSamples rest)
        rw [List.map_append]
        exact List.Sublist.append hs1 hs2

theorem processSample_forall2 (st : RunState) (s : Sample)
    (h : List.Forall₂ (fun p f => translateSample p.2 p.1 = Except.ok f)
      st.appendLog st.appended) :
    List.Forall₂ (fun p f => translateSample p.2 p.1 = Except.ok f)
      (processSample st s).appendLog (processSample st s).appended := by
  rcases hget : seriesCacheGet st.cache s.ref with _ | lset
  · rw [processSample_none st s hget]; exact h
  · rcases htr : translateSample lset s with e | f
    · rw [processSample_translateErr st s lset e hget htr]; exact h
    · rw [processSample_translateOk st s lset f hget htr]
      exact List.rel_append h (List.Forall₂.cons htr List.Forall₂.nil)

theorem foldl_processSample_forall2 (ss : List Sample) :
    ∀ st : RunState,
      List.Forall₂ (fun p f => translateSample p.2 p.1 = Except.ok f)
        st.appendLog st.appended →
      List.Forall₂ (fun p f => translateSample p.2 p.1 = Except.ok f)
        (ss.foldl processSample st).appendLog (ss.foldl processSample st).appended := by
  induction ss with
  | nil => intro st h; exact h
  | cons s ss ih => intro st h; exact ih _ (processSample_forall2 st s h)

theorem processRecord_forall2 (st : RunState) (seg : Nat) (d : RecordData)
    (h : List.Forall₂ (fun p f => translateSample p.2 p.1 = Except.ok f)
      st.appendLog st.appended) :
    List.Forall₂ (fun p f => translateSample p.2 p.1 = Except.ok f)
      (processRecord st seg d).appendLog (processRecord st seg d).appended := by
  cases d with
  | series res => cases res with
    | error e => exact h
    | ok rs => exact h
  | samples res => cases res with
    | error e => exact h
    | ok ss => exact foldl_processSample_forall2 ss st h
  | tombstones => exact h
  | other => exact h

theorem runFrom_forall2 (events : List Event) :
    ∀ st : RunState,
      List.Forall₂ (fun p f => translateSample p.2 p.1 = Except.ok f)
        st.appendLog st.appended →
      List.Forall₂ (fun p f => translateSample p.2 p.1 = Except.ok f)
        (runFrom st events).2.appendLog (runFrom st events).2.appended := by
  induction events with
  | nil => intro st h; exact h
  | cons e rest ih =>
    intro st h
    rcases e with ⟨item, seg⟩
    cases item with
    | readErr msg => exact h
    | record d => exact ih _ (processRecord_forall2 st seg d h)

/-- The completion log line `Run` emits when the reader stream ends. -/
def withDoneLog (st : RunState) : RunState :=
  { st with logs := st.logs ++ [(.info, "Done processing WAL.")] }

theorem runFrom_no_readErr (events : List Event) :
    ∀ st : RunState, (∀ e ∈ events, e.item.isReadErr = false) →
      runFrom st events = (none, withDoneLog (processEvents st events)) := by
  induction events with
  | nil => intro st _; rfl
  | cons e rest ih =>
    intro st h
    rcases e with ⟨item, seg⟩
    cases item with
    | readErr msg =>
      exact absurd (h _ (List.mem_cons_self _ _)) (by simp [ReaderItem.isReadErr])
    | record d =>
      exact ih (processRecord st seg d) (fun e he => h e (List.mem_cons_of_mem _ he))

theorem runFrom_readErr_first (pre : List Event) (msg : String) (seg : Nat)
    (rest : List Event) :
    ∀ st : RunState, (∀ e ∈ pre, e.item.isReadErr = false) →
      runFrom st (pre ++ ⟨.readErr msg, seg⟩ :: rest) = (some msg, processEvents st pre) := by
  induction pre with
  | nil => intro st _; rfl
  | cons e pre ih =>
    intro st h
    rcases e with ⟨item, seg'⟩
    cases item with
    | readErr m =>
      exact absurd (h _ (List.mem_cons_self _ _)) (by simp [ReaderItem.isReadErr])
    | record d =>
      exact ih (processRecord st seg' d) (fun e he => h e (List.mem_cons_of_mem _ he))

theorem forall2_exists_left_of_mem {α β : Type} {R : α → β → Prop} :
    ∀ {l₁ : List α} {l₂ : List β}, List.Forall₂ R l₁ l₂ → ∀ b ∈ l₂, ∃ a, R a b := by
  intro l₁ l₂ h
  induction h with
  | nil => intro b hb; exact absurd hb (List.not_mem_nil b)
  | cons h1 h2 ih =>
    intro b hb
    rcases List.mem_cons.mp hb with rfl | hb
    · exact ⟨_, h1⟩
    · exact ih b hb

/-! The claims. -/

/-- C1 (as frozen) is false on the code: a series declaration whose label
set lacks the reserved metric-name label is stored in the cache, so the
series-cache lookup for its samples succeeds, yet `NewMetricFamily` fails
and zero `Append` calls are made for the sample instead of exactly one. -/
theorem C1_counterexample :
    seriesCacheGet
        (Run [⟨.record (.series (.ok [⟨1, [⟨"a", "1"⟩]⟩])), 0⟩,
              ⟨.record (.samples (.ok [⟨1, 1000, 42⟩])), 0⟩]).2.cache 1
      = some [⟨"a", "1"⟩] ∧
    (Run [⟨.record (.series (.ok [⟨1, [⟨"a", "1"⟩]⟩])), 0⟩,
          ⟨.record (.samples (.ok [⟨1, 1000, 42⟩])), 0⟩]).2.appended = [] :=
  ⟨rfl, rfl⟩

/-- C1 (amended): for every decoded sample whose series-cache lookup
succeeds and whose series label set contains the reserved metric-name label
(exactly once, as for well-formed label sets), the pipeline makes exactly
one `Append` call, carrying the series' labels (minus the name label, in
order), the sample's timestamp and the sample's value. -/
theorem C1_exactly_one_append (st : RunState) (s : Sample) (lset : Labels)
    (nl : Label) (hget : seriesCacheGet st.cache s.ref = some lset)
    (hname : lset.filter (fun l => l.name = MetricName) = [nl]) :
    ∃ f, processSample st s =
        { st with appended := st.appended ++ [f],
                  appendLog := st.appendLog ++ [(s, lset)] } ∧
      f.family.name = some nl.value ∧
      f.family.labelPairs = lset.filter (fun l => l.name ≠ MetricName) ∧
      f.family.timestampMs = some s.t ∧
      f.family.untypedValue = some s.v ∧
      f.targetLabels = lset := by
  have hn : (buildFamily lset s).name = some nl.value := by
    rw [buildFamily_name]; exact nameFold_unique lset none nl hname
  refine ⟨⟨buildFamily lset s, [NoTimestamp], lset⟩, ?_, hn,
    buildFamily_labelPairs lset s, buildFamily_timestampMs lset s,
    buildFamily_untypedValue lset s, rfl⟩
  exact processSample_translateOk st s lset _ hget
    (translateSample_ok_of_name lset s nl.value hn)

/-- Witness for the amended C1 at a concrete cached series and sample. -/
theorem C1_witness :
    ∃ f, processSample { initState with cache := [(7, ⟨[⟨"__name__", "x"⟩, ⟨"a", "1"⟩], 0⟩)] }
          ⟨7, 1000, 35⟩ =
        { { initState with cache := [(7, ⟨[⟨"__name__", "x"⟩, ⟨"a", "1"⟩], 0⟩)] } with
            appended :=
              { initState with cache := [(7, ⟨[⟨"__name__", "x"⟩, ⟨"a", "1"⟩], 0⟩)] }.appended ++ [f],
            appendLog :=
              { initState with cache := [(7, ⟨[⟨"__name__", "x"⟩, ⟨"a", "1"⟩], 0⟩)] }.appendLog
                ++ [(⟨7, 1000, 35⟩, [⟨"__name__", "x"⟩, ⟨"a", "1"⟩])] } ∧
      f.family.name = some "x" ∧
      f.family.labelPairs
        = ([⟨"__name__", "x"⟩, ⟨"a", "1"⟩] : Labels).filter (fun l => l.name ≠ MetricName) ∧
      f.family.timestampMs = some (1000 : Int) ∧
      f.family.untypedValue = some (35 : F64) ∧
      f.targetLabels = ([⟨"__name__", "x"⟩, ⟨"a", "1"⟩] : Labels) :=
  C1_exactly_one_append
    { initState with cache := [(7, ⟨[⟨"__name__", "x"⟩, ⟨"a", "1"⟩], 0⟩)] }
    ⟨7, 1000, 35⟩ [⟨"__name__", "x"⟩, ⟨"a", "1"⟩] ⟨"__name__", "x"⟩ rfl (by decide)

/-- C2: for a decoded sample whose series-cache lookup fails, zero `Append`
calls are made, a warning is logged, the samples-dropped-unknown-ref counter
increments by one, and the per-sample loop continues with the remaining
samples of the record. -/
theorem C2_unknown_ref_drop (st : RunState) (s : Sample) (rest : List Sample)
    (h : seriesCacheGet st.cache s.ref = none) :
    processSample st s =
        { st with logs := st.logs ++ [(.warn, "Unknown series ref in sample")],
                  droppedUnknownRef := st.droppedUnknownRef + 1 } ∧
      (processSample st s).appended = st.appended ∧
      (s :: rest).foldl processSample st
        = rest.foldl processSample (processSample st s) := by
  have he := processSample_none st s h
  exact ⟨he, by simp [he], rfl⟩

/-- Witness for C2 with an empty cache and one sample. -/
theorem C2_witness :
    processSample initState ⟨1, 5, 7⟩ =
        { initState with
            logs := initState.logs ++ [(.warn, "Unknown series ref in sample")],
            droppedUnknownRef := initState.droppedUnknownRef + 1 } ∧
      (processSample initState ⟨1, 5, 7⟩).appended = initState.appended ∧
      ([⟨1, 5, 7⟩] : List Sample).foldl processSample initState
        = ([] : List Sample).foldl processSample (processSample initState ⟨1, 5, 7⟩) :=
  C2_unknown_ref_drop initState ⟨1, 5, 7⟩ [] rfl

/-- C3: when the record reader surfaces a corrupt-record or fatal read error
(`reader.Err()` non-nil) after some error-free prefix of the stream, `Run`
returns that error (a non-nil result) with only the prefix processed. -/
theorem C3_reader_error_terminates (pre : List Event) (msg : String) (seg : Nat)
    (rest : List Event) (hpre : ∀ e ∈ pre, e.item.isReadErr = false) :
    Run (pre ++ ⟨.readErr msg, seg⟩ :: rest) = (some msg, processEvents initState pre) :=
  runFrom_readErr_first pre msg seg rest initState hpre

/-- Witness for C3: a reader error as the first item. -/
theorem C3_witness :
    Run ([] ++ (⟨.readErr "corruption", 0⟩ : Event) :: [])
      = (some "corruption", processEvents initState []) :=
  C3_reader_error_terminates [] "corruption" 0 []
    (fun e he => absurd he (List.not_mem_nil e))

/-- C4: for a translated sample, the outbound name is the value of the
series' reserved metric-name label, and the outbound label list is the
series' label set minus the name label, in the original order. -/
theorem C4_name_extraction (lset : Labels) (s : Sample) (nl : Label)
    (hname : lset.filter (fun l => l.name = MetricName) = [nl]) :
    ∃ f, translateSample lset s = Except.ok f ∧
      f.family.name = some nl.value ∧
      f.family.labelPairs = lset.filter (fun l => l.name ≠ MetricName) := by
  have hn : (buildFamily lset s).name = some nl.value := by
    rw [buildFamily_name]; exact nameFold_unique lset none nl hname
  exact ⟨⟨buildFamily lset s, [NoTimestamp], lset⟩,
    translateSample_ok_of_name lset s nl.value hn, hn, buildFamily_labelPairs lset s⟩

/-- Witness for C4 at a concrete label set. -/
theorem C4_witness :
    ∃ f, translateSample [⟨"__name__", "x"⟩, ⟨"a", "1"⟩] ⟨7, 1000, 35⟩ = Except.ok f ∧
      f.family.name = some "x" ∧
      f.family.labelPairs
        = ([⟨"__name__", "x"⟩, ⟨"a", "1"⟩] : Labels).filter (fun l => l.name ≠ MetricName) :=
  C4_name_extraction [⟨"__name__", "x"⟩, ⟨"a", "1"⟩] ⟨7, 1000, 35⟩ ⟨"__name__", "x"⟩ (by decide)

/-- C5: a translated sample's outbound value is the sample's value unchanged
(values are modelled by their 64-bit patterns, so this equality is
bit-identity, covering NaN and infinities) and its outbound timestamp is the
sample's timestamp in milliseconds. -/
theorem C5_value_timestamp_verbatim (lset : Labels) (s : Sample) (f : MetricFamily)
    (h : translateSample lset s = Except.ok f) :
    f.family.untypedValue = some s.v ∧ f.family.timestampMs = some s.t := by
  have hf := translateSample_ok lset s f h
  rw [hf]
  exact ⟨buildFamily_untypedValue lset s, buildFamily_timestampMs lset s⟩

/-- Witness for C5 at the bit pattern of a quiet NaN (0x7FF8000000000000). -/
theorem C5_witness :
    (⟨⟨some "x", some .untyped, [], some 9221120237041090560, some 1000⟩,
        [NoTimestamp], [⟨"__name__", "x"⟩]⟩ : MetricFamily).family.untypedValue
        = some (9221120237041090560 : F64) ∧
      (⟨⟨some "x", some .untyped, [], some 9221120237041090560, some 1000⟩,
        [NoTimestamp], [⟨"__name__", "x"⟩]⟩ : MetricFamily).family.timestampMs
        = some (1000 : Int) :=
  C5_value_timestamp_verbatim [⟨"__name__", "x"⟩] ⟨7, 1000, 9221120237041090560⟩
    ⟨⟨some "x", some .untyped, [], some 9221120237041090560, some 1000⟩,
      [NoTimestamp], [⟨"__name__", "x"⟩]⟩ rfl

/-- C6: every metric family the pipeline ever hands to `Append`, over any
event stream, has its metric type set to the untyped scalar type and its
reset-timestamp list equal to the `NoTimestamp` sentinel. -/
theorem C6_untyped_and_noTimestamp (events : List Event) (f : MetricFamily)
    (hf : f ∈ (Run events).2.appended) :
    f.family.mtype = some MetricType.untyped ∧
      f.metricResetTimestampMs = [NoTimestamp] := by
  have h2 := runFrom_forall2 events initState List.Forall₂.nil
  obtain ⟨p, hp⟩ := forall2_exists_left_of_mem h2 f hf
  have hf2 := translateSample_ok p.2 p.1 f hp
  rw [hf2]
  exact ⟨buildFamily_mtype p.2 p.1, rfl⟩

/-- Witness for C6 on a one-series, one-sample stream. -/
theorem C6_witness :
    (⟨⟨some "x", some .untyped, [⟨"a", "1"⟩], some 35, some 1000⟩,
        [NoTimestamp], [⟨"__name__", "x"⟩, ⟨"a", "1"⟩]⟩ : MetricFamily).family.mtype
        = some MetricType.untyped ∧
      (⟨⟨some "x", some .untyped, [⟨"a", "1"⟩], some 35, some 1000⟩,
        [NoTimestamp], [⟨"__name__", "x"⟩, ⟨"a", "1"⟩]⟩
          : MetricFamily).metricResetTimestampMs = [NoTimestamp] :=
  C6_untyped_and_noTimestamp
    [⟨.record (.series (.ok [⟨7, [⟨"__name__", "x"⟩, ⟨"a", "1"⟩]⟩])), 0⟩,
     ⟨.record (.samples (.ok [⟨7, 1000, 35⟩])), 0⟩]
    ⟨⟨some "x", some .untyped, [⟨"a", "1"⟩], some 35, some 1000⟩,
      [NoTimestamp], [⟨"__name__", "x"⟩, ⟨"a", "1"⟩]⟩ (by decide)

/-- C7: for any fixed ref, the samples for which `Append` was called, taken
in call order, form an order-preserving subsequence of that ref's samples as
they appear in the WAL (record order, batch order within a record); and each
`Append` call carries exactly its sample's timestamp and value. -/
theorem C7_per_ref_wal_order (events : List Event) (ref : Nat) :
    List.Sublist
        (((Run events).2.appendLog.map Prod.fst).filter (fun s => s.ref == ref))
        ((walSamples events).filter (fun s => s.ref == ref)) ∧
      List.Forall₂
        (fun p f => f.family.timestampMs = some p.1.t ∧
          f.family.untypedValue = some p.1.v)
        (Run events).2.appendLog (Run events).2.appended := by
  constructor
  · obtain ⟨ext, he, hs⟩ := runFrom_appendLog events initState
    have he2 : (Run events).2.appendLog = ext := by simpa [initState] using he
    rw [he2]
    exact List.Sublist.filter _ hs
  · have h2 := runFrom_forall2 events initState List.Forall₂.nil
    refine List.Forall₂.imp ?_ h2
    intro p f hp
    have hf := translateSample_ok p.2 p.1 f hp
    rw [hf]
    exact ⟨buildFamily_timestampMs p.2 p.1, buildFamily_untypedValue p.2 p.1⟩

/-- C8: when the reader stream ends without a reader error (the cancellation
path: `Stop` closes the tailer and the reader observes EOF-equivalent), `Run`
returns nil after fully processing every record already yielded. -/
theorem C8_clean_termination (events : List Event)
    (h : ∀ e ∈ events, e.item.isReadErr = false) :
    Run events = (none, withDoneLog (processEvents initState events)) :=
  runFrom_no_readErr events initState h

/-- Witness for C8 on a two-record stream. -/
theorem C8_witness :
    Run [⟨.record (.series (.ok [⟨7, [⟨"__name__", "x"⟩]⟩])), 0⟩,
         ⟨.record (.samples (.ok [⟨7, 9, 5⟩])), 0⟩]
      = (none, withDoneLog (processEvents initState
          [⟨.record (.series (.ok [⟨7, [⟨"__name__", "x"⟩]⟩])), 0⟩,
           ⟨.record (.samples (.ok [⟨7, 9, 5⟩])), 0⟩])) :=
  C8_clean_termination
    [⟨.record (.series (.ok [⟨7, [⟨"__name__", "x"⟩]⟩])), 0⟩,
     ⟨.record (.samples (.ok [⟨7, 9, 5⟩])), 0⟩]
    (by decide)

/-- C9: per-record and per-sample failures recover locally.  A series or
samples record whose payload fails to decode is dropped with a log entry and
a count, leaving the cache and the `Append` trace untouched, and the loop
continues with the next record; a sample whose metric-family construction
fails is dropped with a warning and a count, no `Append` is made for it, and
the remaining samples of the record are still processed. -/
theorem C9_local_recovery (st : RunState) (seg : Nat) (e1 e2 e3 : String)
    (lset : Labels) (s : Sample) (rest : List Event) (srest : List Sample)
    (hget : seriesCacheGet st.cache s.ref = some lset)
    (htr : translateSample lset s = Except.error e3) :
    processRecord st seg (.series (.error e1)) =
        { st with logs := st.logs ++ [(.error, "series decode error")],
                  decodeFailed := st.decodeFailed + 1 } ∧
      processRecord st seg (.samples (.error e2)) =
        { st with logs := st.logs ++ [(.error, "samples decode error")],
                  decodeFailed := st.decodeFailed + 1 } ∧
      processSample st s =
        { st with logs := st.logs ++ [(.warn, "Cannot construct MetricFamily")],
                  translateFailed := st.translateFailed + 1 } ∧
      runFrom st (⟨.record (.series (.error e1)), seg⟩ :: rest)
        = runFrom (processRecord st seg (.series (.error e1))) rest ∧
      (s :: srest).foldl processSample st
        = srest.foldl processSample (processSample st s) :=
  ⟨rfl, rfl, processSample_translateErr st s lset e3 hget htr, rfl, rfl⟩

/-- Witness for C9: a cached series without a name label makes translation
fail; decode failures at concrete error strings. -/
theorem C9_witness :
    processRecord { initState with cache := [(3, ⟨[⟨"a", "1"⟩], 0⟩)] } 0
          (.series (.error "E1")) =
        { { initState with cache := [(3, ⟨[⟨"a", "1"⟩], 0⟩)] } with
            logs := { initState with cache := [(3, ⟨[⟨"a", "1"⟩], 0⟩)] }.logs
              ++ [(.error, "series decode error")],
            decodeFailed :=
              { initState with cache := [(3, ⟨[⟨"a", "1"⟩], 0⟩)] }.decodeFailed + 1 } ∧
      processRecord { initState with cache := [(3, ⟨[⟨"a", "1"⟩], 0⟩)] } 0
          (.samples (.error "E2")) =
        { { initState with cache := [(3, ⟨[⟨"a", "1"⟩], 0⟩)] } with
            logs := { initState with cache := [(3, ⟨[⟨"a", "1"⟩], 0⟩)] }.logs
              ++ [(.error, "samples decode error")],
            decodeFailed :=
              { initState with cache := [(3, ⟨[⟨"a", "1"⟩], 0⟩)] }.decodeFailed + 1 } ∧
      processSample { initState with cache := [(3, ⟨[⟨"a", "1"⟩], 0⟩)] } ⟨3, 1, 2⟩ =
        { { initState with cache := [(3, ⟨[⟨"a", "1"⟩], 0⟩)] } with
            logs := { initState with cache := [(3, ⟨[⟨"a", "1"⟩], 0⟩)] }.logs
              ++ [(.warn, "Cannot construct MetricFamily")],
            translateFailed :=
              { initState with cache := [(3, ⟨[⟨"a", "1"⟩], 0⟩)] }.translateFailed + 1 } ∧
      runFrom { initState with cache := [(3, ⟨[⟨"a", "1"⟩], 0⟩)] }
          (⟨.record (.series (.error "E1")), 0⟩ :: [])
        = runFrom (processRecord { initState with cache := [(3, ⟨[⟨"a", "1"⟩], 0⟩)] } 0
            (.series (.error "E1"))) [] ∧
      ([⟨3, 1, 2⟩] : List Sample).foldl processSample
          { initState with cache := [(3, ⟨[⟨"a", "1"⟩], 0⟩)] }
        = ([] : List Sample).foldl processSample
            (processSample { initState with cache := [(3, ⟨[⟨"a", "1"⟩], 0⟩)] } ⟨3, 1, 2⟩) :=
  C9_local_recovery { initState with cache := [(3, ⟨[⟨"a", "1"⟩], 0⟩)] } 0
    "E1" "E2" "missing metric name" [⟨"a", "1"⟩] ⟨3, 1, 2⟩ [] [] rfl rfl

/-- C10: the constructor leaves `cancelTail` at its zero value (nil), so
calling `Stop` before `Run` has assigned it invokes a nil function and
faults (a Go nil-function-call panic), while after `Run`'s assignment
`Stop` succeeds. -/
theorem C10_stop_before_run_faults (dir : String) (r : PrometheusReaderCtl) :
    Stop (NewPrometheusReader dir) =
        Except.error "runtime error: invalid memory address or nil pointer dereference" ∧
      Stop (runStart r) = Except.ok () :=
  ⟨rfl, rfl⟩

end Retrieval
